import Mathlib

/-!
Verification of the ToolJet server utility helpers
(`server/src/helpers/utils.helper.ts`).

Shallow embedding of the three components the claims are about:

* the connection freshness cache (`cacheConnection` / `getCachedConnection`),
* the hand-rolled dotted-version comparator (`isVersionGreaterThanOrEqual`),
* the semver-library based helpers (`extractMajorVersion`,
  `checkVersionCompatibility`).

JavaScript strings are modelled through their character lists (`String.data`);
JavaScript `Number(...)` coercion of a version segment is modelled as decimal
digit parsing, with every other input (empty or containing a non-digit)
degrading to `0`, exactly as `+x || 0` maps `NaN` and `0` to `0` in the
source.  Timestamps (`Date.getTime()`) are modelled as integers counting
milliseconds since the epoch; the division by `1000` in the staleness check is
taken over `ℚ` so that the sign of fractional differences is preserved, as it
is for JavaScript floating-point division.
-/

/-- Decimal value of a list of digit characters, most significant first.
Models the effect of JavaScript `Number` on a string of decimal digits. -/
def digitsVal (cs : List Char) : Nat :=
  cs.foldl (fun n c => 10 * n + (c.toNat - 48)) 0

/-- Models `+seg || 0` applied to a version segment in the source: after the
split on `'-'` a segment never contains a sign, so JavaScript yields the
decimal value for a non-empty all-digit segment and `NaN` (hence `0` after
`|| 0`) otherwise. -/
def jsNumberOrZero (cs : List Char) : Nat :=
  if cs ≠ [] ∧ cs.all Char.isDigit then digitsVal cs else 0

/-- Models JavaScript `String.prototype.split` on a single-character
separator: segments between separators are kept, empty segments included, and
the empty string splits into `[""]`. -/
def splitChars (p : Char → Bool) : List Char → List (List Char)
  | [] => [[]]
  | c :: rest =>
    let r := splitChars p rest
    if p c then [] :: r
    else (c :: r.headD []) :: r.tail

/-- Embeds the segment extraction of `isVersionGreaterThanOrEqual`:
`version.split('-')[0].split('.').map(Number)` (the later `+x || 0` in the
loop body is folded into `jsNumberOrZero`). -/
def versionParts (version : String) : List Nat :=
  (splitChars (fun c => c == '.')
      ((splitChars (fun c => c == '-') version.data).headD [])).map jsNumberOrZero

/-- Embeds the `for` loop of `isVersionGreaterThanOrEqual`: `i` is the loop
index, the second argument counts the remaining iterations (initially
`Math.max(v1Parts.length, v2Parts.length)`), and out-of-range indices read as
`0` via `getD`, matching `+v1Parts[i] || 0`. -/
def isVGELoop (v1Parts v2Parts : List Nat) : Nat → Nat → Bool
  | _, 0 => true
  | i, remaining + 1 =>
    let v1Part := v1Parts.getD i 0
    let v2Part := v2Parts.getD i 0
    if v1Part < v2Part then false
    else if v2Part < v1Part then true
    else isVGELoop v1Parts v2Parts (i + 1) remaining

/-- Embeds `isVersionGreaterThanOrEqual(version1, version2)` from
`utils.helper.ts`.  `!version1` is true for a `string` argument exactly on the
empty string (an absent argument is modelled as `""`). -/
def isVersionGreaterThanOrEqual (version1 version2 : String) : Bool :=
  if version1 = "" then false
  else
    isVGELoop (versionParts version1) (versionParts version2) 0
      (max (versionParts version1).length (versionParts version2).length)

/-- Spec-side segment coercion, from the specification's words: "coerce each
segment to an integer (missing/non-numeric segments treated as 0)". -/
def specCoerceSegment (cs : List Char) : Nat :=
  if cs ≠ [] ∧ cs.all Char.isDigit then digitsVal cs else 0

/-- Spec-side version tuple: "strip any `-suffix`", "split on `.`", coerce
each segment. -/
def specVersionTuple (v : String) : List Nat :=
  (splitChars (fun c => c == '.')
      ((splitChars (fun c => c == '-') v.data).headD [])).map specCoerceSegment

/-- Zero padding of a tuple to a given length, from the specification:
"tuples of unequal length are compared as if the shorter is zero-padded". -/
def zeroPad (n : Nat) (l : List Nat) : List Nat :=
  l ++ List.replicate (n - l.length) 0

/-- Spec-side lexicographic walk over two equal-length padded tuples: "at the
first segment where they differ, return `v1segment > v2segment`; if all
compared segments are equal, return true". -/
def specLexGE : List Nat → List Nat → Bool
  | [], _ => true
  | _ :: _, [] => true
  | x :: xs, y :: ys => if x = y then specLexGE xs ys else decide (y < x)

/-- The specification's `compareDottedVersions` algorithm, steps 1-6 of
§4.2 of the design document, stated independently of the source embedding. -/
def compareDottedVersionsSpec (v1 v2 : String) : Bool :=
  if v1 = "" then false
  else
    specLexGE
      (zeroPad (max (specVersionTuple v1).length (specVersionTuple v2).length)
        (specVersionTuple v1))
      (zeroPad (max (specVersionTuple v1).length (specVersionTuple v2).length)
        (specVersionTuple v2))

/-- A cache entry as stored by `cacheConnection`: the opaque connection
handle together with the `new Date()` insertion timestamp (milliseconds). -/
structure CacheEntry (α : Type) where
  connection : α
  updatedAt : Int
deriving DecidableEq, Repr

/-- The process-wide `globalThis.CACHED_CONNECTIONS` object, as a map from
data source id to at most one entry. -/
def Cache (α : Type) : Type := String → Option (CacheEntry α)

/-- Embeds `cacheConnection(dataSourceId, connection)`: unconditionally
overwrites the entry for `dataSourceId` with the handle and the current time
`now` (the `new Date()` taken at the call). -/
def cacheConnection {α : Type} (cache : Cache α) (dataSourceId : String)
    (connection : α) (now : Int) : Cache α :=
  fun id => if id = dataSourceId then some ⟨connection, now⟩ else cache id

/-- Embeds `getCachedConnection(dataSourceId, dataSourceUpdatedAt)`.  A
missing entry gives `cachedData = {}` (always truthy, so the `if (cachedData)`
branch is always taken); `new Date(x || null)` turns an absent timestamp into
the epoch, hence `Option.getD _ 0`; on a missing entry `cachedAt` is the epoch
and `cachedData['connection']` is `undefined`, i.e. `none`.  `diffTime` is the
floating-point division by 1000, modelled over `ℚ`. -/
def getCachedConnection {α : Type} (cache : Cache α) (dataSourceId : String)
    (dataSourceUpdatedAt : Option Int) : Option α :=
  let cachedData := cache dataSourceId
  let updatedAt : Int := dataSourceUpdatedAt.getD 0
  let cachedAt : Int := (Option.map CacheEntry.updatedAt cachedData).getD 0
  let diffTime : ℚ := ((cachedAt - updatedAt : Int) : ℚ) / 1000
  if diffTime < 0 then none
  else Option.map CacheEntry.connection cachedData

/-- State-passing form of `getCachedConnection`: the body of the source
function contains no assignment to `globalThis.CACHED_CONNECTIONS`, so the
cache component passes through unchanged. -/
def getCachedConnectionSt {α : Type} (cache : Cache α) (dataSourceId : String)
    (dataSourceUpdatedAt : Option Int) : Option α × Cache α :=
  (getCachedConnection cache dataSourceId dataSourceUpdatedAt, cache)

/-- A parsed semantic version as produced by `semver.coerce`: coercion keeps
only the numeric `major.minor.patch` core, so no pre-release or build
component is present. -/
structure SemVer where
  major : Nat
  minor : Nat
  patch : Nat
deriving DecidableEq, Repr

/-- Models the group extraction of the `semver.coerce` regular expression
`(\d+)(?:\.(\d+))?(?:\.(\d+))?` starting at a digit: a maximal digit run is
the major component, and a minor (then patch) component is taken only when a
`.` immediately followed by a digit comes next. -/
def coerceGroups (cs : List Char) : SemVer :=
  let r1 := cs.dropWhile Char.isDigit
  if r1.headD ' ' = '.' ∧ (r1.tail.headD ' ').isDigit then
    let r3 := r1.tail.dropWhile Char.isDigit
    if r3.headD ' ' = '.' ∧ (r3.tail.headD ' ').isDigit then
      ⟨digitsVal (cs.takeWhile Char.isDigit), digitsVal (r1.tail.takeWhile Char.isDigit),
        digitsVal (r3.tail.takeWhile Char.isDigit)⟩
    else ⟨digitsVal (cs.takeWhile Char.isDigit), digitsVal (r1.tail.takeWhile Char.isDigit), 0⟩
  else ⟨digitsVal (cs.takeWhile Char.isDigit), 0, 0⟩

/-- Models the search for the first regex match of `semver.coerce`: the first
digit of the string starts the match (the preceding character, if any, is a
non-digit, discharging the `(^|[^\d])` boundary); a string with no digit does
not match and coerces to `null`. -/
def semverCoerceChars : List Char → Option SemVer
  | [] => none
  | c :: cs => if c.isDigit then some (coerceGroups (c :: cs)) else semverCoerceChars cs

/-- Models `semver.coerce(version)`: `none` is the `null` result. -/
def semverCoerce (version : String) : Option SemVer :=
  semverCoerceChars version.data

/-- Models `semver.compareMain`: major, then minor, then patch, numerically. -/
def semverCompareMain (a b : SemVer) : Ordering :=
  match compare a.major b.major with
  | Ordering.eq =>
    match compare a.minor b.minor with
    | Ordering.eq => compare a.patch b.patch
    | o => o
  | o => o

/-- Models `semver.gte` on coerced versions: both arguments have an empty
pre-release list, on which `comparePre` returns `eq`, so the comparison is
decided by `compareMain` alone. -/
def semverGte (a b : SemVer) : Bool :=
  match semverCompareMain a b with
  | Ordering.lt => false
  | _ => true

/-- Embeds `checkVersionCompatibility(importingVersion)` with the running
version `globalThis.TOOLJET_VERSION` passed explicitly.  `semver.gte` throws
`Invalid Version` when either `semver.coerce` returned `null`, modelled as
`none`. -/
def checkVersionCompatibility (runningVersion importingVersion : String) : Option Bool :=
  match semverCoerce runningVersion, semverCoerce importingVersion with
  | some r, some i => some (semverGte r i)
  | _, _ => none

/-- Decimal digit characters of `n`, most significant first, with explicit
fuel (structural recursion so that concrete instances evaluate). -/
def natDecimalAux : Nat → Nat → List Char
  | 0, _ => []
  | fuel + 1, n =>
    if n < 10 then [Nat.digitChar n]
    else natDecimalAux fuel (n / 10) ++ [Nat.digitChar (n % 10)]

/-- Decimal representation of a natural number, as JavaScript prints a
non-negative integer. -/
def natDecimalChars (n : Nat) : List Char :=
  natDecimalAux (n + 1) n

/-- Models the `version` string of a coerced semver object, i.e.
`` `${major}.${minor}.${patch}` ``; this is what `semver.valid` returns on a
valid version. -/
def semverFormat (v : SemVer) : String :=
  ⟨natDecimalChars v.major ++ ('.' :: (natDecimalChars v.minor ++ ('.' :: natDecimalChars v.patch)))⟩

/-- Embeds `extractMajorVersion(version) = semver.valid(semver.coerce(version))`:
`valid` maps `null` to `null` and a coerced object to its normalized
`major.minor.patch` string. -/
def extractMajorVersion (version : String) : Option String :=
  (semverCoerce version).map semverFormat

/-- Spec-side semantic-version precedence, from the specification's words:
"greater than or equal ... major, then minor, then patch; pre-release
metadata ignored after coercion". -/
def semverPrecedenceGE (a b : SemVer) : Prop :=
  b.major < a.major ∨
    (a.major = b.major ∧
      (b.minor < a.minor ∨ (a.minor = b.minor ∧ b.patch ≤ a.patch)))

/-- Dividing an integer by 1000 over `ℚ` preserves its sign, so the
`diffTime < 0` test of `getCachedConnection` is decided by the millisecond
difference. -/
theorem ratDiv1000_neg_iff (x : Int) : ((x : ℚ) / 1000 < 0) ↔ x < 0 := by
  rw [div_neg_iff]
  norm_num

/-- A lookup on a cache whose entry for `R` was cached at `c` returns the
stored handle whenever the reference timestamp is at or before `c`. -/
theorem entry_lookup_fresh {α : Type} (cache : Cache α) (R : String) (H : α)
    (c t : Int) (hR : cache R = some ⟨H, c⟩) (ht : t ≤ c) :
    getCachedConnection cache R (some t) = some H := by
  simp only [getCachedConnection, hR, Option.map_some', Option.getD_some]
  rw [if_neg]
  rw [ratDiv1000_neg_iff]
  omega

/-- A lookup on a cache whose entry for `R` was cached at `c` returns `none`
whenever the reference timestamp is strictly after `c`. -/
theorem entry_lookup_stale {α : Type} (cache : Cache α) (R : String) (H : α)
    (c t : Int) (hR : cache R = some ⟨H, c⟩) (ht : c < t) :
    getCachedConnection cache R (some t) = none := by
  simp only [getCachedConnection, hR, Option.map_some', Option.getD_some]
  rw [if_pos]
  rw [ratDiv1000_neg_iff]
  omega

/-- The entry a store writes for its own key. -/
theorem cacheConnection_self {α : Type} (cache : Cache α) (R : String) (H : α)
    (now : Int) : cacheConnection cache R H now R = some ⟨H, now⟩ := by
  simp [cacheConnection]

/-- C2: a handle stored for `R` at time `now` is returned by a lookup whose
reference timestamp `t` is at or before `now`. -/
theorem store_then_lookup_fresh {α : Type} (cache : Cache α) (R : String) (H : α)
    (now t : Int) (h : t ≤ now) :
    getCachedConnection (cacheConnection cache R H now) R (some t) = some H :=
  entry_lookup_fresh (cacheConnection cache R H now) R H now t
    (cacheConnection_self cache R H now) h

/-- C3: with a stored entry cached at `c` and a reference timestamp `t`
strictly after it, the computed `diffTime` is negative and the lookup returns
`none`. -/
theorem lookup_stale_absent {α : Type} (cache : Cache α) (R : String) (H : α)
    (c t : Int) (hR : cache R = some ⟨H, c⟩) (ht : c < t) :
    (((c - t : Int) : ℚ) / 1000 < 0) ∧
      getCachedConnection cache R (some t) = none := by
  refine ⟨?_, entry_lookup_stale cache R H c t hR ht⟩
  rw [ratDiv1000_neg_iff]
  omega

/-- C4: a lookup never mutates the cache: a stale lookup returns `none`
without evicting the entry, a later lookup with a reference timestamp at or
before the cached time still returns the stored handle, and the state-passing
form of the lookup leaves the cache mapping unchanged on every input. -/
theorem lookup_no_mutation {α : Type} (cache : Cache α) (R : String) (H : α)
    (c t1 t2 : Int) (hR : cache R = some ⟨H, c⟩) (h1 : c < t1) (h2 : t2 ≤ c) :
    getCachedConnection cache R (some t1) = none ∧
      getCachedConnection cache R (some t2) = some H ∧
      ∀ (id : String) (t : Option Int), (getCachedConnectionSt cache id t).2 = cache :=
  ⟨entry_lookup_stale cache R H c t1 hR h1,
    entry_lookup_fresh cache R H c t2 hR h2, fun _ _ => rfl⟩

/-- C6: insertion unconditionally overwrites, so after two stores for the
same identifier a fresh lookup returns the second handle. -/
theorem store_overwrites {α : Type} (cache : Cache α) (R : String) (H1 H2 : α)
    (n1 n2 t : Int) (h : t ≤ n2) :
    getCachedConnection (cacheConnection (cacheConnection cache R H1 n1) R H2 n2) R
      (some t) = some H2 :=
  entry_lookup_fresh (cacheConnection (cacheConnection cache R H1 n1) R H2 n2) R H2 n2 t
    (cacheConnection_self (cacheConnection cache R H1 n1) R H2 n2) h

/-- C7: a lookup for an identifier that was never stored returns `none` for
every reference timestamp, present or absent. -/
theorem lookup_never_stored {α : Type} (cache : Cache α) (R : String)
    (t : Option Int) (hR : cache R = none) :
    getCachedConnection cache R t = none := by
  simp only [getCachedConnection, hR, Option.map_none', Option.getD_none]
  split <;> rfl

/-- C10: a store touches only its own key: every other identifier keeps
exactly the entry (handle and timestamp) it had before. -/
theorem store_frame {α : Type} (cache : Cache α) (R R' : String) (H : α)
    (now : Int) (h : R' ≠ R) :
    cacheConnection cache R H now R' = cache R' := by
  simp only [cacheConnection, if_neg h]

/-- Witness for C2 at a concrete store/lookup pair. -/
theorem store_then_lookup_fresh_witness :
    (3 : Int) ≤ 5 ∧
      getCachedConnection (cacheConnection (fun _ => none) "ds" (7 : Nat) 5) "ds"
        (some 3) = some 7 :=
  ⟨by decide, store_then_lookup_fresh (fun _ => none) "ds" 7 5 3 (by decide)⟩

/-- Witness for C3 at a concrete stale lookup. -/
theorem lookup_stale_absent_witness :
    ((((5 : Int) - 8 : Int) : ℚ) / 1000 < 0) ∧
      getCachedConnection
        (fun id => if id = "ds" then some ⟨(7 : Nat), 5⟩ else none) "ds"
        (some 8) = none :=
  lookup_stale_absent (fun id => if id = "ds" then some ⟨(7 : Nat), 5⟩ else none)
    "ds" 7 5 8 (by simp) (by decide)

/-- Witness for C4 at a concrete cache state. -/
theorem lookup_no_mutation_witness :
    getCachedConnection
        (fun id => if id = "ds" then some ⟨(7 : Nat), 5⟩ else none) "ds"
        (some 9) = none ∧
      getCachedConnection
        (fun id => if id = "ds" then some ⟨(7 : Nat), 5⟩ else none) "ds"
        (some 2) = some 7 ∧
      ∀ (id : String) (t : Option Int),
        (getCachedConnectionSt
          (fun id => if id = "ds" then some ⟨(7 : Nat), 5⟩ else none) id t).2 =
          fun id => if id = "ds" then some ⟨(7 : Nat), 5⟩ else none :=
  lookup_no_mutation (fun id => if id = "ds" then some ⟨(7 : Nat), 5⟩ else none)
    "ds" 7 5 9 2 (by simp) (by decide) (by decide)

/-- Witness for C6 at a concrete pair of stores. -/
theorem store_overwrites_witness :
    (4 : Int) ≤ 6 ∧
      getCachedConnection
        (cacheConnection (cacheConnection (fun _ => none) "ds" (7 : Nat) 2) "ds" 9 6)
        "ds" (some 4) = some 9 :=
  ⟨by decide, store_overwrites (fun _ => none) "ds" 7 9 2 6 4 (by decide)⟩

/-- Witness for C7 at a concrete empty cache, absent timestamp included. -/
theorem lookup_never_stored_witness :
    ((fun _ => none : Cache Nat) "ds" = none) ∧
      getCachedConnection (fun _ => none : Cache Nat) "ds" none = none :=
  ⟨rfl, lookup_never_stored (fun _ => none) "ds" none rfl⟩

/-- Witness for C10 at a concrete pair of distinct keys. -/
theorem store_frame_witness :
    ("other" ≠ "ds") ∧
      cacheConnection (fun _ => none : Cache Nat) "ds" 7 5 "other" =
        (fun _ => none : Cache Nat) "other" :=
  ⟨by decide, store_frame (fun _ => none) "ds" "other" 7 5 (by decide)⟩

/-- A tuple padded to a length at least its own has exactly that length. -/
theorem zeroPad_length (n : Nat) (l : List Nat) (h : l.length ≤ n) :
    (zeroPad n l).length = n := by
  simp only [zeroPad, List.length_append, List.length_replicate]
  omega

/-- Reading a padded tuple with default `0` agrees with reading the original
tuple with default `0` at every index. -/
theorem getD_zeroPad (n i : Nat) (l : List Nat) :
    (zeroPad n l).getD i 0 = l.getD i 0 := by
  unfold zeroPad
  rcases lt_or_le i l.length with h | h
  · exact List.getD_append _ _ _ _ h
  · rw [List.getD_eq_default _ _ h, List.getD_eq_getElem?_getD,
      List.getElem?_append_right h, List.getElem?_replicate]
    split <;> rfl

/-- Dropping `i < m` elements of an `m`-padded tuple exposes the `i`-th
segment (with default `0`) as the head. -/
theorem drop_zeroPad_cons (m i : Nat) (l : List Nat) (hlen : l.length ≤ m)
    (hi : i < m) :
    (zeroPad m l).drop i = l.getD i 0 :: (zeroPad m l).drop (i + 1) := by
  have h : i < (zeroPad m l).length := by
    rw [zeroPad_length _ _ hlen]
    exact hi
  rw [List.drop_eq_getElem_cons h]
  rw [← List.getD_eq_getElem _ 0 h, getD_zeroPad]

/-- The source loop of `isVersionGreaterThanOrEqual`, started at index `i`
with `k` iterations left, agrees with the specification's lexicographic walk
over the zero-padded tails. -/
theorem isVGELoop_eq_specLexGE (p1 p2 : List Nat) (m : Nat)
    (h1 : p1.length ≤ m) (h2 : p2.length ≤ m) :
    ∀ k i, i + k = m →
      isVGELoop p1 p2 i k =
        specLexGE ((zeroPad m p1).drop i) ((zeroPad m p2).drop i) := by
  intro k
  induction k with
  | zero =>
    intro i hi
    rw [List.drop_eq_nil_of_le (by rw [zeroPad_length _ _ h1]; omega),
      List.drop_eq_nil_of_le (by rw [zeroPad_length _ _ h2]; omega)]
    rfl
  | succ k ih =>
    intro i hi
    have hi' : i < m := by omega
    rw [drop_zeroPad_cons m i p1 h1 hi', drop_zeroPad_cons m i p2 h2 hi']
    rw [isVGELoop, specLexGE]
    rcases lt_trichotomy (p1.getD i 0) (p2.getD i 0) with hlt | heq | hgt
    · rw [if_pos hlt, if_neg (show p1.getD i 0 ≠ p2.getD i 0 by omega),
        decide_eq_false (show ¬p2.getD i 0 < p1.getD i 0 by omega)]
    · rw [if_neg (show ¬p1.getD i 0 < p2.getD i 0 by omega),
        if_neg (show ¬p2.getD i 0 < p1.getD i 0 by omega), if_pos heq]
      exact ih (i + 1) (by omega)
    · rw [if_neg (show ¬p1.getD i 0 < p2.getD i 0 by omega), if_pos hgt,
        if_neg (show p1.getD i 0 ≠ p2.getD i 0 by omega), decide_eq_true hgt]

/-- The spec-side tuple extraction coincides with the source-side one. -/
theorem specVersionTuple_eq_versionParts (v : String) :
    specVersionTuple v = versionParts v := rfl

/-- C1: `isVersionGreaterThanOrEqual` returns the result of the specified
`compareDottedVersions` algorithm on every pair of version strings, and in
particular on the three examples given in the specification. -/
theorem isVersionGreaterThanOrEqual_matches_spec :
    (∀ v1 v2, isVersionGreaterThanOrEqual v1 v2 = compareDottedVersionsSpec v1 v2) ∧
      isVersionGreaterThanOrEqual "2.24.1" "2.24.0" = true ∧
      isVersionGreaterThanOrEqual "2.23.9" "2.24.0" = false ∧
      isVersionGreaterThanOrEqual "2.24" "2.24.0" = true := by
  refine ⟨?_, by decide, by decide, by decide⟩
  intro v1 v2
  unfold isVersionGreaterThanOrEqual compareDottedVersionsSpec
  by_cases h : v1 = ""
  · simp [h]
  · rw [if_neg h, if_neg h, specVersionTuple_eq_versionParts,
      specVersionTuple_eq_versionParts]
    have hmain := isVGELoop_eq_specLexGE (versionParts v1) (versionParts v2)
      (max (versionParts v1).length (versionParts v2).length)
      (le_max_left _ _) (le_max_right _ _)
      (max (versionParts v1).length (versionParts v2).length) 0 (by omega)
    rw [List.drop_zero, List.drop_zero] at hmain
    exact hmain

/-- C8: `isVersionGreaterThanOrEqual` is a total function into `Bool`, and a
malformed (empty or non-numeric) segment coerces to `0` instead of failing. -/
theorem isVersionGreaterThanOrEqual_total :
    (∀ v1 v2, isVersionGreaterThanOrEqual v1 v2 = true ∨
        isVersionGreaterThanOrEqual v1 v2 = false) ∧
      ∀ cs, ¬(cs ≠ [] ∧ cs.all Char.isDigit = true) → jsNumberOrZero cs = 0 := by
  constructor
  · intro v1 v2
    cases isVersionGreaterThanOrEqual v1 v2 <;> simp
  · intro cs h
    unfold jsNumberOrZero
    rw [if_neg h]

/-- Witness for C8 on the non-numeric segment `beta`. -/
theorem isVersionGreaterThanOrEqual_total_witness :
    (¬((['b', 'e', 't', 'a'] : List Char) ≠ [] ∧
        (['b', 'e', 't', 'a'] : List Char).all Char.isDigit = true)) ∧
      jsNumberOrZero ['b', 'e', 't', 'a'] = 0 :=
  ⟨by decide, isVersionGreaterThanOrEqual_total.2 ['b', 'e', 't', 'a'] (by decide)⟩

/-- The character of a decimal digit has the expected code point. -/
theorem digitChar_toNat (d : Nat) (h : d < 10) : (Nat.digitChar d).toNat = 48 + d := by
  interval_cases d <;> rfl

/-- The character of a decimal digit is a digit character. -/
theorem digitChar_isDigit (d : Nat) (h : d < 10) : (Nat.digitChar d).isDigit = true := by
  interval_cases d <;> rfl

/-- Appending one character multiplies the accumulated decimal value by ten
and adds the character's digit value. -/
theorem digitsVal_append_singleton (l : List Char) (c : Char) :
    digitsVal (l ++ [c]) = 10 * digitsVal l + (c.toNat - 48) := by
  simp [digitsVal, List.foldl_append]

/-- With enough fuel, `natDecimalAux` prints a number whose decimal value is
the number itself. -/
theorem natDecimalAux_val : ∀ fuel n, n < 10 ^ fuel →
    digitsVal (natDecimalAux fuel n) = n := by
  intro fuel
  induction fuel with
  | zero =>
    intro n hn
    interval_cases n
    rfl
  | succ fuel ih =>
    intro n hn
    rw [natDecimalAux]
    by_cases h : n < 10
    · rw [if_pos h]
      show digitsVal [Nat.digitChar n] = n
      simp [digitsVal, digitChar_toNat n h]
    · rw [if_neg h, digitsVal_append_singleton,
        ih (n / 10) (by rw [Nat.div_lt_iff_lt_mul (by norm_num)]; rw [pow_succ] at hn; omega),
        digitChar_toNat _ (Nat.mod_lt _ (by norm_num))]
      omega

/-- Every character printed by `natDecimalAux` is a decimal digit. -/
theorem natDecimalAux_all_digit : ∀ fuel n c, c ∈ natDecimalAux fuel n →
    c.isDigit = true := by
  intro fuel
  induction fuel with
  | zero =>
    intro n c hc
    simp [natDecimalAux] at hc
  | succ fuel ih =>
    intro n c hc
    rw [natDecimalAux] at hc
    by_cases h : n < 10
    · rw [if_pos h] at hc
      rw [List.mem_singleton] at hc
      subst hc
      exact digitChar_isDigit n h
    · rw [if_neg h, List.mem_append] at hc
      rcases hc with hc | hc
      · exact ih _ _ hc
      · rw [List.mem_singleton] at hc
        subst hc
        exact digitChar_isDigit _ (Nat.mod_lt _ (by norm_num))

/-- `natDecimalAux` with positive fuel prints at least one character. -/
theorem natDecimalAux_ne_nil (fuel n : Nat) : natDecimalAux (fuel + 1) n ≠ [] := by
  rw [natDecimalAux]
  split
  · simp
  · simp

/-- Every natural number is strictly below `10 ^ (n + 1)`. -/
theorem lt_ten_pow_succ (n : Nat) : n < 10 ^ (n + 1) :=
  lt_of_lt_of_le (Nat.lt_pow_self (by norm_num) n)
    (Nat.pow_le_pow_right (by norm_num) (Nat.le_succ n))

/-- Round trip: parsing the decimal representation of `n` gives back `n`. -/
theorem natDecimalChars_val (n : Nat) : digitsVal (natDecimalChars n) = n :=
  natDecimalAux_val (n + 1) n (lt_ten_pow_succ n)

/-- The decimal representation of a natural number is all digit characters. -/
theorem natDecimalChars_all_digit (n : Nat) :
    ∀ c ∈ natDecimalChars n, c.isDigit = true :=
  fun c hc => natDecimalAux_all_digit (n + 1) n c hc

/-- The decimal representation of a natural number is non-empty. -/
theorem natDecimalChars_ne_nil (n : Nat) : natDecimalChars n ≠ [] :=
  natDecimalAux_ne_nil n n

/-- `takeWhile` and `dropWhile` on a list all of whose elements satisfy the
predicate. -/
theorem takeWhile_all {p : Char → Bool} :
    ∀ l : List Char, (∀ c ∈ l, p c = true) →
      l.takeWhile p = l ∧ l.dropWhile p = [] := by
  intro l
  induction l with
  | nil => exact fun _ => ⟨rfl, rfl⟩
  | cons a l ih =>
    intro h
    have pa : p a = true := h a (List.mem_cons_self a l)
    rw [List.takeWhile_cons_of_pos pa, List.dropWhile_cons_of_pos pa]
    exact ⟨by rw [(ih fun c hc => h c (List.mem_cons_of_mem a hc)).1],
      (ih fun c hc => h c (List.mem_cons_of_mem a hc)).2⟩

/-- `takeWhile` and `dropWhile` on an all-satisfying prefix followed by a
failing element. -/
theorem takeWhile_append_stop {p : Char → Bool} :
    ∀ (l : List Char) (x : Char) (r : List Char),
      (∀ c ∈ l, p c = true) → p x = false →
        (l ++ x :: r).takeWhile p = l ∧ (l ++ x :: r).dropWhile p = x :: r := by
  intro l
  induction l with
  | nil =>
    intro x r _ hx
    rw [List.nil_append]
    exact ⟨List.takeWhile_cons_of_neg (by simp [hx]),
      List.dropWhile_cons_of_neg (by simp [hx])⟩
  | cons a l ih =>
    intro x r h hx
    have pa : p a = true := h a (List.mem_cons_self a l)
    rw [List.cons_append, List.takeWhile_cons_of_pos pa, List.dropWhile_cons_of_pos pa]
    have hrec := ih x r (fun c hc => h c (List.mem_cons_of_mem a hc)) hx
    exact ⟨by rw [hrec.1], hrec.2⟩

/-- The regex group extraction applied to a formatted `major.minor.patch`
string recovers the three components. -/
theorem coerceGroups_format (A B C : List Char)
    (hA : ∀ c ∈ A, c.isDigit = true) (hB : ∀ c ∈ B, c.isDigit = true)
    (hC : ∀ c ∈ C, c.isDigit = true) (hB0 : B ≠ []) (hC0 : C ≠ []) :
    coerceGroups (A ++ ('.' :: (B ++ ('.' :: C)))) =
      ⟨digitsVal A, digitsVal B, digitsVal C⟩ := by
  have hdot : Char.isDigit '.' = false := by decide
  have h1 := takeWhile_append_stop A '.' (B ++ ('.' :: C)) hA hdot
  have h2 := takeWhile_append_stop B '.' C hB hdot
  have h3 := takeWhile_all C hC
  have hb : ((B ++ ('.' :: C)).headD ' ').isDigit = true := by
    obtain ⟨b, B', hBeq⟩ := List.exists_cons_of_ne_nil hB0
    rw [hBeq, List.cons_append, List.headD_cons]
    exact hB b (hBeq ▸ List.mem_cons_self b B')
  have hc : (C.headD ' ').isDigit = true := by
    obtain ⟨c0, C', hCeq⟩ := List.exists_cons_of_ne_nil hC0
    rw [hCeq, List.headD_cons]
    exact hC c0 (hCeq ▸ List.mem_cons_self c0 C')
  simp only [coerceGroups]
  rw [h1.1, h1.2]
  simp only [List.headD_cons, List.tail_cons]
  rw [if_pos ⟨trivial, hb⟩, h2.1, h2.2]
  simp only [List.headD_cons, List.tail_cons]
  rw [if_pos ⟨trivial, hc⟩, h3.1]

/-- Coercing the normalized string of a coerced semver gives it back. -/
theorem semverCoerce_format (v : SemVer) : semverCoerce (semverFormat v) = some v := by
  obtain ⟨a, A', hAeq⟩ := List.exists_cons_of_ne_nil (natDecimalChars_ne_nil v.major)
  have ha : a.isDigit = true :=
    natDecimalChars_all_digit v.major a (hAeq ▸ List.mem_cons_self a A')
  show semverCoerceChars
      (natDecimalChars v.major ++
        ('.' :: (natDecimalChars v.minor ++ ('.' :: natDecimalChars v.patch)))) = some v
  rw [hAeq, List.cons_append]
  rw [semverCoerceChars, if_pos ha]
  rw [← List.cons_append, ← hAeq]
  rw [coerceGroups_format _ _ _ (natDecimalChars_all_digit v.major)
    (natDecimalChars_all_digit v.minor) (natDecimalChars_all_digit v.patch)
    (natDecimalChars_ne_nil v.minor) (natDecimalChars_ne_nil v.patch)]
  rw [natDecimalChars_val, natDecimalChars_val, natDecimalChars_val]

/-- C9: `extractMajorVersion` is idempotent on its non-null outputs. -/
theorem extractMajorVersion_idempotent (v s : String)
    (h : extractMajorVersion v = some s) : extractMajorVersion s = some s := by
  unfold extractMajorVersion at h ⊢
  cases hcv : semverCoerce v with
  | none =>
    rw [hcv] at h
    simp at h
  | some x =>
    rw [hcv, Option.map_some'] at h
    obtain rfl : semverFormat x = s := Option.some_inj.mp h
    rw [semverCoerce_format, Option.map_some']

/-- Witness for C9 at the specification's own example input. -/
theorem extractMajorVersion_idempotent_witness :
    extractMajorVersion "v2.1" = some "2.1.0" ∧
      extractMajorVersion "2.1.0" = some "2.1.0" :=
  ⟨by decide, extractMajorVersion_idempotent "v2.1" "2.1.0" (by decide)⟩

/-- The library comparison `semver.gte` on coerced versions agrees with
lexicographic major/minor/patch precedence. -/
theorem semverGte_iff (a b : SemVer) :
    semverGte a b = true ↔ semverPrecedenceGE a b := by
  unfold semverGte semverCompareMain semverPrecedenceGE
  rcases lt_trichotomy a.major b.major with h | h | h
  · rw [Nat.compare_eq_lt.mpr h]
    simp
    omega
  · rw [Nat.compare_eq_eq.mpr h]
    rcases lt_trichotomy a.minor b.minor with h2 | h2 | h2
    · rw [Nat.compare_eq_lt.mpr h2]
      simp
      omega
    · rw [Nat.compare_eq_eq.mpr h2]
      rcases lt_trichotomy a.patch b.patch with h3 | h3 | h3
      · rw [Nat.compare_eq_lt.mpr h3]
        simp
        omega
      · rw [Nat.compare_eq_eq.mpr h3]
        simp
        omega
      · rw [Nat.compare_eq_gt.mpr h3]
        simp
        omega
    · rw [Nat.compare_eq_gt.mpr h2]
      simp
      omega
  · rw [Nat.compare_eq_gt.mpr h]
    simp
    omega

/-- C5: on inputs both of which `semver.coerce` accepts,
`checkVersionCompatibility` returns true exactly when the coerced running
version is at least the coerced importing version under semantic-version
precedence, with the specification's two examples. -/
theorem checkVersionCompatibility_spec :
    (∀ r i vr vi, semverCoerce r = some vr → semverCoerce i = some vi →
        (checkVersionCompatibility r i = some true ↔ semverPrecedenceGE vr vi)) ∧
      checkVersionCompatibility "2.25.0" "2.24.1" = some true ∧
      checkVersionCompatibility "2.24.0" "2.24.1" = some false := by
  refine ⟨?_, by decide, by decide⟩
  intro r i vr vi hr hi
  unfold checkVersionCompatibility
  rw [hr, hi]
  simp only [Option.some.injEq]
  exact semverGte_iff vr vi

/-- Witness for C5 at the specification's first example. -/
theorem checkVersionCompatibility_spec_witness :
    semverCoerce "2.25.0" = some ⟨2, 25, 0⟩ ∧
      semverCoerce "2.24.1" = some ⟨2, 24, 1⟩ ∧
      (checkVersionCompatibility "2.25.0" "2.24.1" = some true ↔
        semverPrecedenceGE ⟨2, 25, 0⟩ ⟨2, 24, 1⟩) :=
  ⟨by decide, by decide,
    checkVersionCompatibility_spec.1 "2.25.0" "2.24.1" ⟨2, 25, 0⟩ ⟨2, 24, 1⟩
      (by decide) (by decide)⟩
